import Mathlib

/-!
Shallow embedding of the poly-hft trading engine, for checking its
specification against the code.

Conventions used throughout:
* `rust_decimal::Decimal` values are modelled as exact rationals (`ℚ`).
* `chrono::DateTime<Utc>` values are modelled as integer nanoseconds since
  the epoch (`ℤ`); `chrono::TimeDelta::num_seconds` truncates toward zero,
  which is `Int.tdiv · 1000000000`.
* `std::time::Duration` values are modelled as natural numbers (`ℕ`).
* Wall-clock reads (`Utc::now()`) are passed in as explicit parameters;
  fields that only record a wall-clock read and are never consulted by the
  verified logic (e.g. `detected_at`) are omitted.
* `HashMap` state is modelled as an association list whose lookup takes the
  first matching key; insertion replaces the first occurrence in place.
* Decimal strings arriving on the wire are modelled by their parse result
  (`Option ℚ`, `none` for an unparseable string).
-/

namespace PolyHft

/-- A price level of the L2 book (`orderbook/mod.rs`): a price and the total
size available at it. -/
structure PriceLevel where
  price : ℚ
  size : ℚ
deriving DecidableEq, Repr

/-- L2 aggregated order book for one token (`orderbook/book.rs`). -/
structure OrderBook where
  token_id : String
  bids : List PriceLevel
  asks : List PriceLevel
  updated_at : ℤ
deriving DecidableEq, Repr

/-- `OrderBook::best_bid`: price of the first bid level. -/
def OrderBook.best_bid (b : OrderBook) : Option ℚ :=
  b.bids.head?.map (·.price)

/-- `OrderBook::best_ask`: price of the first ask level. -/
def OrderBook.best_ask (b : OrderBook) : Option ℚ :=
  b.asks.head?.map (·.price)

/-- The book store (`OrderBookManager` in `orderbook/client.rs`): current
order books by token id. -/
structure OrderBookManager where
  books : List (String × OrderBook)
deriving DecidableEq, Repr

/-- The empty manager (`OrderBookManager::new`). -/
def OrderBookManager.new : OrderBookManager := ⟨[]⟩

/-- `HashMap` lookup: first entry with the given key. -/
def OrderBookManager.get (m : OrderBookManager) (token_id : String) : Option OrderBook :=
  (m.books.find? (fun p => p.1 == token_id)).map (·.2)

/-- `HashMap::insert`: replace the first entry with the key, or append. -/
def insertEntry : List (String × OrderBook) → String → OrderBook → List (String × OrderBook)
  | [], t, b => [(t, b)]
  | (k, v) :: rest, t, b =>
    if k = t then (t, b) :: rest else (k, v) :: insertEntry rest t b

/-- One step of the merge loop in `OrderBookManager::merge_update`: the
first existing level at the incoming price gets its size overwritten
(`existing.bids[pos].size = new_level.size`); with no such level the
incoming one is pushed at the end. -/
def upsertLevel : List PriceLevel → PriceLevel → List PriceLevel
  | [], nl => [nl]
  | l :: ls, nl =>
    if l.price = nl.price then ⟨l.price, nl.size⟩ :: ls
    else l :: upsertLevel ls nl

/-- The merge loop over all incoming levels of one side. -/
def upsertLevels (existing incoming : List PriceLevel) : List PriceLevel :=
  incoming.foldl upsertLevel existing

/-- `sort_by(|a, b| b.price.cmp(&a.price))`: stable sort, descending by
price. -/
def sortBidsDesc (ls : List PriceLevel) : List PriceLevel :=
  ls.mergeSort (fun a b => b.price ≤ a.price)

/-- `sort_by(|a, b| a.price.cmp(&b.price))`: stable sort, ascending by
price. -/
def sortAsksAsc (ls : List PriceLevel) : List PriceLevel :=
  ls.mergeSort (fun a b => a.price ≤ b.price)

/-- `OrderBookManager::merge_update`: merge incremental updates into the
existing book (upsert each level, then re-sort each side); with no existing
book, insert the update as-is. -/
def OrderBookManager.merge_update (m : OrderBookManager) (update : OrderBook) : OrderBookManager :=
  match m.get update.token_id with
  | some existing =>
    let bids := sortBidsDesc (upsertLevels existing.bids update.bids)
    let asks := sortAsksAsc (upsertLevels existing.asks update.asks)
    ⟨insertEntry m.books update.token_id ⟨update.token_id, bids, asks, update.updated_at⟩⟩
  | none => ⟨insertEntry m.books update.token_id update⟩

/-- `OrderBookManager::update`: replace entirely for books with more than 5
levels on a side, otherwise merge. -/
def OrderBookManager.update (m : OrderBookManager) (book : OrderBook) : OrderBookManager :=
  if 5 < book.bids.length ∨ 5 < book.asks.length then
    ⟨insertEntry m.books book.token_id book⟩
  else
    m.merge_update book

/-- An entry of a `price_change` event (`PriceChange` in
`orderbook/client.rs`); `price` and `size` are the parse results of the
decimal strings on the wire. -/
structure PriceChange where
  asset_id : String
  price : Option ℚ
  size : Option ℚ
  side : String
deriving DecidableEq, Repr

/-- A `price_changes` message (`PriceChangesMessage`). -/
structure PriceChangesMessage where
  market : Option String
  price_changes : List PriceChange
deriving DecidableEq, Repr

/-- Push a parsed level onto the side named by `side` ("BUY" = bids,
"SELL" = asks, anything else ignored). -/
def pushSide (e : List PriceLevel × List PriceLevel) (lv : PriceLevel) (sd : String) :
    List PriceLevel × List PriceLevel :=
  if sd = "BUY" then (e.1 ++ [lv], e.2)
  else if sd = "SELL" then (e.1, e.2 ++ [lv])
  else e

/-- `changes_by_asset.entry(asset).or_insert(..)` followed by the push: the
first entry with the asset id is extended, or a fresh entry is appended.
(The source groups into a `HashMap`; the model fixes first-insertion order,
which the per-entry facts proved below do not depend on.) -/
def pushChange : List (String × List PriceLevel × List PriceLevel) → String → PriceLevel →
    String → List (String × List PriceLevel × List PriceLevel)
  | [], a, lv, sd => [(a, pushSide ([], []) lv sd)]
  | (k, e) :: rest, a, lv, sd =>
    if k = a then (k, pushSide e lv sd) :: rest
    else (k, e) :: pushChange rest a lv sd

/-- The grouping loop of `price_changes_to_orderbook`: parse failures are
skipped, zero-size levels are skipped, the rest are grouped by asset id. -/
def groupChanges (changes : List PriceChange) :
    List (String × List PriceLevel × List PriceLevel) :=
  changes.foldl
    (fun acc c =>
      match c.price, c.size with
      | some p, some s => if s = 0 then acc else pushChange acc c.asset_id ⟨p, s⟩ c.side
      | _, _ => acc)
    []

/-- `price_changes_to_orderbook`: convert a `price_changes` message into at
most one `OrderBook` update (the first grouped asset); `now` stands for the
`Utc::now()` read taken for `updated_at`. -/
def price_changes_to_orderbook (now : ℤ) (msg : PriceChangesMessage) : Option OrderBook :=
  if msg.price_changes.isEmpty then none
  else
    match groupChanges msg.price_changes with
    | [] => none
    | (asset, e) :: _ =>
      if e.1.isEmpty ∧ e.2.isEmpty then none
      else some ⟨asset, e.1, e.2, now⟩

/-- `chrono::TimeDelta::num_seconds` on a difference of nanosecond
timestamps: whole seconds, truncated toward zero. -/
def numSeconds (d : ℤ) : ℤ := Int.tdiv d 1000000000

/-- Direction of detected momentum (`momentum/types.rs`). -/
inductive MomentumDirection where
  | Up
  | Down
deriving DecidableEq, Repr

/-- A detected momentum signal (`momentum/types.rs`); the `detected_at`
wall-clock field is omitted. `move_pct` is the non-negative magnitude of
the move. -/
structure MomentumSignal where
  direction : MomentumDirection
  move_pct : ℚ
  strike_price : ℚ
  current_price : ℚ
  velocity : ℚ
  confidence : ℚ
deriving DecidableEq, Repr

/-- Configuration for momentum detection (`MomentumConfig`). -/
structure MomentumConfig where
  window_seconds : ℕ
  min_move_pct : ℚ
  max_move_pct : ℚ
  confirmation_seconds : ℕ
deriving DecidableEq, Repr

/-- Mutable state of `MomentumDetector`: the rolling window of
(timestamp, price) samples, oldest first, plus confirmation tracking. -/
structure MomentumDetectorState where
  prices : List (ℤ × ℚ)
  last_direction : Option MomentumDirection
  direction_start : Option ℤ
deriving DecidableEq, Repr

/-- `MomentumDetector::calculate_velocity`: price change per second over
the window. -/
def calculate_velocity (st : MomentumDetectorState) : ℚ :=
  if st.prices.length < 2 then 0
  else
    match st.prices.head?, st.prices.getLast? with
    | some (first_ts, first_price), some (last_ts, last_price) =>
      let time_diff := numSeconds (last_ts - first_ts)
      if time_diff = 0 then 0
      else (last_price - first_price) / (time_diff : ℚ)
    | _, _ => 0

/-- `MomentumDetector::calculate_confidence`. -/
def calculate_confidence (cfg : MomentumConfig) (st : MomentumDetectorState) (abs_move : ℚ) : ℚ :=
  let move_confidence := min (abs_move / cfg.min_move_pct) 2 / 2
  let sample_confidence := (min st.prices.length 100 : ℚ) / 100
  move_confidence * (6 / 10) + sample_confidence * (4 / 10)

/-- `MomentumDetector::detect`: emit a momentum signal relative to the
strike price if the move is inside `[min_move_pct, max_move_pct]` and its
direction has persisted for `confirmation_seconds`; returns the signal (if
any) together with the updated confirmation-tracking state. -/
def MomentumDetector.detect (cfg : MomentumConfig) (st : MomentumDetectorState) (strike_price : ℚ) :
    Option MomentumSignal × MomentumDetectorState :=
  if st.prices.isEmpty ∨ strike_price = 0 then (none, st)
  else
    match st.prices.getLast? with
    | none => (none, st)
    | some (current_ts, current_price) =>
      let move_pct := (current_price - strike_price) / strike_price
      let abs_move := |move_pct|
      if abs_move < cfg.min_move_pct then
        (none, { st with last_direction := none, direction_start := none })
      else if cfg.max_move_pct < abs_move then (none, st)
      else
        let direction := if 0 < move_pct then MomentumDirection.Up else MomentumDirection.Down
        match st.last_direction with
        | some last_dir =>
          if last_dir = direction then
            match st.direction_start with
            | some start =>
              if (cfg.confirmation_seconds : ℤ) ≤ numSeconds (current_ts - start) then
                (some ⟨direction, abs_move, strike_price, current_price,
                       calculate_velocity st, calculate_confidence cfg st abs_move⟩, st)
              else (none, st)
            | none => (none, st)
          else
            (none, { st with last_direction := some direction, direction_start := some current_ts })
        | none =>
          (none, { st with last_direction := some direction, direction_start := some current_ts })

/-- Which side a lag signal trades (`lag/types.rs`). -/
inductive TradeSide where
  | Yes
  | No
deriving DecidableEq, Repr

/-- Current state of the venue odds (`OddsState`); the `spread` and
`timestamp` fields, never consulted by the detector, are omitted. -/
structure OddsState where
  yes_price : ℚ
  no_price : ℚ
deriving DecidableEq, Repr

/-- A detected lag signal (`LagSignal`); the `detected_at` wall-clock field
is omitted. -/
structure LagSignal where
  side : TradeSide
  lag_magnitude : ℚ
  expected_price : ℚ
  actual_price : ℚ
  momentum : MomentumSignal
  odds : OddsState
  confidence : ℚ
  seconds_since_open : ℤ
  seconds_until_close : ℤ
deriving DecidableEq, Repr

/-- `LagSignal::new`: combines a lag-size confidence (20 cents caps it at
one) with the momentum confidence. -/
def LagSignal.new (side : TradeSide) (lag_magnitude expected_price actual_price : ℚ)
    (momentum : MomentumSignal) (odds : OddsState)
    (seconds_since_open seconds_until_close : ℤ) : LagSignal :=
  let lag_confidence := min (lag_magnitude / (20 / 100)) 1
  let combined_confidence := (lag_confidence + momentum.confidence) / 2
  ⟨side, lag_magnitude, expected_price, actual_price, momentum, odds,
   combined_confidence, seconds_since_open, seconds_until_close⟩

/-- Reason why no lag signal was generated (`NoLagReason`). -/
inductive NoLagReason where
  | NoMomentum
  | OddsAlreadyMoved
  | LagTooSmall
  | TooEarlyInWindow
  | TooCloseToClose
  | NoOrderBookData
  | MarketNotActive
deriving DecidableEq, Repr

/-- A 15-minute binary market (`market/mod.rs`). -/
structure Market where
  condition_id : String
  yes_token_id : String
  no_token_id : String
  open_price : ℚ
  open_time : ℤ
  close_time : ℤ
deriving DecidableEq, Repr

/-- Configuration for lag detection (`LagDetectorConfig`). -/
structure LagDetectorConfig where
  min_lag_cents : ℚ
  max_yes_for_up : ℚ
  min_yes_for_down : ℚ
  min_seconds_after_open : ℤ
  max_seconds_before_close : ℤ
  price_sensitivity : ℚ
deriving DecidableEq, Repr

/-- The default `LagDetectorConfig`. -/
def LagDetectorConfig.default : LagDetectorConfig :=
  ⟨10 / 100, 60 / 100, 40 / 100, 60, 120, 10⟩

/-- `LagDetector::calculate_expected_price`: linear model
`0.50 + move_pct·100·sensitivity/100`, clamped into `[0.10, 0.90]`. Note
that the momentum direction is not consulted. -/
def calculate_expected_price (cfg : LagDetectorConfig) (momentum : MomentumSignal) : ℚ :=
  let base_price : ℚ := 50 / 100
  let adjustment := momentum.move_pct * 100 * cfg.price_sensitivity / 100
  let expected := base_price + adjustment
  min (max expected (10 / 100)) (90 / 100)

/-- `LagDetector::detect_at`: decide whether the odds lag the momentum, at
an explicit evaluation time `now`. -/
def detect_at (cfg : LagDetectorConfig) (momentum : MomentumSignal) (odds : OddsState)
    (market : Market) (now : ℤ) : Except NoLagReason (Option LagSignal) :=
  let seconds_since_open := numSeconds (now - market.open_time)
  let seconds_until_close := numSeconds (market.close_time - now)
  if seconds_since_open < cfg.min_seconds_after_open then
    .error .TooEarlyInWindow
  else if seconds_until_close < cfg.max_seconds_before_close then
    .error .TooCloseToClose
  else if now < market.open_time ∨ market.close_time < now then
    .error .MarketNotActive
  else
    let expected_price := calculate_expected_price cfg momentum
    match momentum.direction with
    | .Up =>
      if cfg.max_yes_for_up ≤ odds.yes_price then .error .OddsAlreadyMoved
      else
        let lag := expected_price - odds.yes_price
        if lag < cfg.min_lag_cents then .error .LagTooSmall
        else
          .ok (some (LagSignal.new .Yes lag expected_price odds.yes_price momentum odds
            seconds_since_open seconds_until_close))
    | .Down =>
      if odds.yes_price ≤ cfg.min_yes_for_down then .error .OddsAlreadyMoved
      else
        let expected_yes := 1 - expected_price
        let lag := odds.yes_price - expected_yes
        if lag < cfg.min_lag_cents then .error .LagTooSmall
        else
          .ok (some (LagSignal.new .No lag expected_yes odds.yes_price momentum odds
            seconds_since_open seconds_until_close))

/-- Position and risk limits (`risk/limits.rs`). -/
structure PositionLimits where
  max_position_pct : ℚ
  max_concurrent_positions : ℕ
  max_daily_loss_pct : ℚ
  max_drawdown_pct : ℚ
  max_exposure_pct : ℚ
deriving DecidableEq, Repr

/-- Reason for a trading halt (`HaltReason`). -/
inductive HaltReason where
  | MaxDailyLossReached (dd : ℚ)
  | MaxDrawdownReached (dd : ℚ)
  | MaxExposureReached (dd : ℚ)
deriving DecidableEq, Repr

/-- Drawdown monitor state (`DrawdownMonitor`). -/
structure DrawdownMonitor where
  peak_equity : ℚ
  current_equity : ℚ
  daily_start_equity : ℚ
  daily_pnl : ℚ
deriving DecidableEq, Repr

/-- `DrawdownMonitor::current_drawdown`: fractional drawdown from peak. -/
def DrawdownMonitor.current_drawdown (m : DrawdownMonitor) : ℚ :=
  if m.peak_equity = 0 then 0
  else (m.peak_equity - m.current_equity) / m.peak_equity

/-- `DrawdownMonitor::daily_drawdown`: fractional loss since the daily
start. -/
def DrawdownMonitor.daily_drawdown (m : DrawdownMonitor) : ℚ :=
  if m.daily_start_equity = 0 then 0
  else -m.daily_pnl / m.daily_start_equity

/-- `DrawdownMonitor::should_halt`: daily loss checked before peak
drawdown. -/
def DrawdownMonitor.should_halt (m : DrawdownMonitor) (limits : PositionLimits) :
    Option HaltReason :=
  let daily_dd := m.daily_drawdown
  if limits.max_daily_loss_pct < daily_dd then
    some (.MaxDailyLossReached daily_dd)
  else
    let drawdown := m.current_drawdown
    if limits.max_drawdown_pct < drawdown then
      some (.MaxDrawdownReached drawdown)
    else none

/-- Trading side of an order or signal (`signal/types.rs`). -/
inductive Side where
  | Yes
  | No
deriving DecidableEq, Repr

/-- A trading signal (`signal/types.rs`); only the fields consulted by the
position ledger are modelled (`id`, `reason`, `timestamp` omitted). -/
structure Signal where
  market : Market
  side : Side
  fair_value : ℚ
  market_price : ℚ
  raw_edge : ℚ
  adjusted_edge : ℚ
  confidence : ℚ
deriving DecidableEq, Repr

/-- An execution fill (`execution/types.rs`); `order_id` is modelled as a
natural number standing for the `Uuid`. -/
structure Fill where
  order_id : ℕ
  token_id : String
  side : Side
  price : ℚ
  size : ℚ
  timestamp : ℤ
  fees : ℚ
deriving DecidableEq, Repr

/-- An open position (`risk/position.rs`); `id` is modelled as a natural
number standing for the `Uuid`. -/
structure Position where
  id : ℕ
  market : Market
  side : Side
  entry_price : ℚ
  size : ℚ
  entry_time : ℤ
  unrealized_pnl : ℚ
deriving DecidableEq, Repr

/-- A closed position (`ClosedPosition`). -/
structure ClosedPosition where
  position : Position
  exit_price : ℚ
  exit_time : ℤ
  realized_pnl : ℚ
  fees : ℚ
deriving DecidableEq, Repr

/-- The position ledger (`PositionTracker`): open positions keyed by id,
closed history, and total capital at risk. -/
structure PositionTracker where
  open_positions : List (ℕ × Position)
  closed_positions : List ClosedPosition
  total_exposure : ℚ
deriving DecidableEq, Repr

/-- The empty tracker (`PositionTracker::new`). -/
def PositionTracker.new : PositionTracker := ⟨[], [], 0⟩

/-- `PositionTracker::open`: record a position from a signal and a fill and
add the fill notional to the total exposure. `id` stands for the freshly
drawn `Uuid::new_v4()`. -/
def PositionTracker.openPosition (t : PositionTracker) (signal : Signal) (fill : Fill)
    (id : ℕ) : Position × PositionTracker :=
  let position : Position :=
    ⟨id, signal.market, signal.side, fill.price, fill.size, fill.timestamp, 0⟩
  (position,
   { t with
     open_positions := (id, position) :: t.open_positions,
     total_exposure := t.total_exposure + fill.size * fill.price })

/-- `HashMap::remove`: take out the first entry with the given key. -/
def removeEntry : List (ℕ × Position) → ℕ → Option (Position × List (ℕ × Position))
  | [], _ => none
  | (k, v) :: rest, id =>
    if k = id then some (v, rest)
    else
      match removeEntry rest id with
      | some (p, rest2) => some (p, (k, v) :: rest2)
      | none => none

/-- `PositionTracker::close`: remove the position, realize its P&L against
the exit fill, and subtract the exit notional from the total exposure. -/
def PositionTracker.close (t : PositionTracker) (position_id : ℕ) (fill : Fill) :
    Option (ClosedPosition × PositionTracker) :=
  match removeEntry t.open_positions position_id with
  | none => none
  | some (position, rest) =>
    let pnl :=
      match position.side with
      | .Yes => (fill.price - position.entry_price) * position.size
      | .No => (position.entry_price - fill.price) * position.size
    let closed : ClosedPosition := ⟨position, fill.price, fill.timestamp, pnl - fill.fees, fill.fees⟩
    some (closed,
      { t with
        open_positions := rest,
        closed_positions := t.closed_positions ++ [closed],
        total_exposure := t.total_exposure - fill.size * fill.price })

/-- Reconnection-relevant part of `WsConfig` (`ws/types.rs`); delays in
nanoseconds. -/
structure WsConfig where
  max_reconnect_attempts : ℕ
  initial_reconnect_delay : ℕ
  max_reconnect_delay : ℕ
deriving DecidableEq, Repr

/-- The delay update after each failed attempt in `run_connection_loop`:
`reconnect_delay = (reconnect_delay * 2).min(config.max_reconnect_delay)`. -/
def nextReconnectDelay (cfg : WsConfig) (d : ℕ) : ℕ :=
  min (d * 2) cfg.max_reconnect_delay

/-- The delay slept before reconnect attempt `k + 1` while connection
errors persist: the loop starts at `initial_reconnect_delay` and applies
`nextReconnectDelay` after each sleep. -/
def reconnectDelay (cfg : WsConfig) : ℕ → ℕ
  | 0 => cfg.initial_reconnect_delay
  | k + 1 => nextReconnectDelay cfg (reconnectDelay cfg k)

/-- Observable counters of the recorder (`AtomicRecorderStats`), for one
stream. -/
structure RecorderStats where
  received : ℕ
  written : ℕ
  channel_drops : ℕ
deriving DecidableEq, Repr

/-- State of one recorder pipeline (`data/recorder.rs`): the bounded
channel between producer and writer, the writer's in-memory buffer, the
counters, and whether a flush has ever failed. `α` is the record type. -/
structure RecorderState (α : Type) where
  queue : List α
  buffer : List α
  stats : RecorderStats
  errored : Bool
deriving DecidableEq, Repr

/-- The initial recorder state. -/
def RecorderState.init {α : Type} : RecorderState α := ⟨[], [], ⟨0, 0, 0⟩, false⟩

/-- Capacity of the producer-to-writer channel (`mpsc::channel(10_000)`). -/
def recorderChannelCapacity : ℕ := 10000

/-- Events of the recorder pipeline. `flushOk` is the outcome of the disk
write attempted by the flush (environmental nondeterminism). -/
inductive RecorderEvent (α : Type) where
  | record (r : α)
  | writerRecv (flushOk : Bool)
  | timerFlush (flushOk : Bool)
deriving DecidableEq, Repr

/-- `flush_price_buffer`: the buffer is taken either way; on a successful
write the written counter advances, on a failed write the records are lost
and the writer has errored. -/
def flushBuffer {α : Type} (s : RecorderState α) (ok : Bool) : RecorderState α :=
  if s.buffer.isEmpty then s
  else if ok then
    { s with buffer := [],
             stats := { s.stats with written := s.stats.written + s.buffer.length } }
  else
    { s with buffer := [], errored := true }

/-- One transition of the recorder pipeline:
`record` is `record_price`/`record_orderbook` (non-blocking `try_send`,
counting a drop on overflow); `writerRecv` is the writer dequeuing one
record, counting it as received, buffering it and flushing when the buffer
reaches `buffer_size`; `timerFlush` is the periodic flush of a non-empty
buffer. -/
def recorderStep {α : Type} (buffer_size : ℕ) (s : RecorderState α) :
    RecorderEvent α → RecorderState α
  | .record r =>
    if s.queue.length < recorderChannelCapacity then
      { s with queue := s.queue ++ [r] }
    else
      { s with stats := { s.stats with channel_drops := s.stats.channel_drops + 1 } }
  | .writerRecv ok =>
    match s.queue with
    | [] => s
    | r :: rest =>
      let s2 :=
        { s with queue := rest,
                 buffer := s.buffer ++ [r],
                 stats := { s.stats with received := s.stats.received + 1 } }
      if buffer_size ≤ s2.buffer.length then flushBuffer s2 ok else s2
  | .timerFlush ok =>
    if s.buffer.isEmpty then s else flushBuffer s ok

/-- Run the recorder pipeline over a sequence of events. -/
def recorderRun {α : Type} (buffer_size : ℕ) (events : List (RecorderEvent α)) :
    RecorderState α :=
  events.foldl (recorderStep buffer_size) RecorderState.init

/-- Modelled from the spec's words (step 4 of the lag decision), for
comparison with `calculate_expected_price`:
`expected = clamp(0.5 + direction·move_pct·price_sensitivity, 0.10, 0.90)`
with `direction = 1` for Up and `−1` for Down. -/
def spec_expected_directional (price_sensitivity move_pct : ℚ)
    (direction : MomentumDirection) : ℚ :=
  let dir : ℚ := match direction with | .Up => 1 | .Down => -1
  min (max (1/2 + dir * move_pct * price_sensitivity) (1/10)) (9/10)

/-- Bid prices strictly descending. -/
def strictDesc (ls : List PriceLevel) : Prop :=
  ls.Pairwise (fun a b => b.price < a.price)

/-- Ask prices strictly ascending. -/
def strictAsc (ls : List PriceLevel) : Prop :=
  ls.Pairwise (fun a b => a.price < b.price)

/-- Every level's size strictly positive. -/
def posSizes (ls : List PriceLevel) : Prop :=
  ∀ l ∈ ls, 0 < l.size

/-- A well-formed book side by side: bids strictly descending, asks
strictly ascending, all sizes positive. -/
def wfBook (b : OrderBook) : Prop :=
  strictDesc b.bids ∧ strictAsc b.asks ∧ posSizes b.bids ∧ posSizes b.asks

/-- Apply a sequence of snapshot/delta order books to the store, starting
from the empty manager. -/
def applyBooks (events : List OrderBook) : OrderBookManager :=
  events.foldl OrderBookManager.update OrderBookManager.new

/-! ## Helper lemmas on truncating division by one second -/

theorem tdiv_sec_nonpos {d : ℤ} (h : d ≤ 0) : numSeconds d ≤ 0 := by
  have h2 : 0 ≤ -d := by omega
  have h3 : 0 ≤ (-d).tdiv 1000000000 := Int.tdiv_nonneg h2 (by norm_num)
  have h4 : (-d).tdiv 1000000000 = -(d.tdiv 1000000000) := Int.neg_tdiv d 1000000000
  simp only [numSeconds]
  omega

theorem tdiv_sec_pos {d : ℤ} (h : 1 ≤ numSeconds d) : 0 < d := by
  by_contra hc
  have := tdiv_sec_nonpos (d := d) (by omega)
  omega

theorem tdiv_sec_lt {d k : ℤ} (h0 : 0 ≤ d) (h : d < k * 1000000000) : numSeconds d < k := by
  have he : numSeconds d = d / 1000000000 := Int.tdiv_eq_ediv h0 (by norm_num)
  rw [he]
  exact (Int.ediv_lt_iff_lt_mul (by norm_num)).mpr h

/-! ## C7: drawdown halt ordering -/

/-- C7: `should_halt` returns `MaxDailyLossReached` if the daily drawdown
exceeds `max_daily_loss_pct`; otherwise `MaxDrawdownReached` if the peak
drawdown exceeds `max_drawdown_pct`; otherwise no halt — in particular,
when both thresholds are exceeded simultaneously the result is
`MaxDailyLossReached`. -/
theorem c7_should_halt_ordering (m : DrawdownMonitor) (limits : PositionLimits) :
    (limits.max_daily_loss_pct < m.daily_drawdown →
      m.should_halt limits = some (.MaxDailyLossReached m.daily_drawdown)) ∧
    (¬ limits.max_daily_loss_pct < m.daily_drawdown →
      limits.max_drawdown_pct < m.current_drawdown →
      m.should_halt limits = some (.MaxDrawdownReached m.current_drawdown)) ∧
    (¬ limits.max_daily_loss_pct < m.daily_drawdown →
      ¬ limits.max_drawdown_pct < m.current_drawdown →
      m.should_halt limits = none) ∧
    (limits.max_daily_loss_pct < m.daily_drawdown →
      limits.max_drawdown_pct < m.current_drawdown →
      m.should_halt limits = some (.MaxDailyLossReached m.daily_drawdown)) := by
  refine ⟨fun h1 => ?_, fun h1 h2 => ?_, fun h1 h2 => ?_, fun h1 _ => ?_⟩
  · simp [DrawdownMonitor.should_halt, h1]
  · simp [DrawdownMonitor.should_halt, h1, h2]
  · simp [DrawdownMonitor.should_halt, h1, h2]
  · simp [DrawdownMonitor.should_halt, h1]

/-- Witness for C7 at a monitor 15 % down from its start and peak, with
5 % daily-loss and 10 % drawdown limits: both thresholds are exceeded and
the daily loss wins. -/
theorem c7_witness :
    DrawdownMonitor.should_halt ⟨1000, 850, 1000, -150⟩ ⟨1/100, 3, 5/100, 10/100, 10/100⟩ =
      some (.MaxDailyLossReached (3/20)) := by
  have hd : DrawdownMonitor.daily_drawdown ⟨1000, 850, 1000, -150⟩ = 3/20 := by
    norm_num [DrawdownMonitor.daily_drawdown]
  have hc : DrawdownMonitor.current_drawdown ⟨1000, 850, 1000, -150⟩ = 3/20 := by
    norm_num [DrawdownMonitor.current_drawdown]
  have h := (c7_should_halt_ordering ⟨1000, 850, 1000, -150⟩
    ⟨1/100, 3, 5/100, 10/100, 10/100⟩).2.2.2
  rw [h (by rw [hd]; norm_num) (by rw [hc]; norm_num), hd]

/-! ## C8: exponential reconnect backoff -/

/-- C8: while connection errors persist, the delay slept before reconnect
attempt `k + 1` equals `min(initial · 2^k, max)` (so the k-th delay, k ≥ 1,
is `min(initial · 2^(k−1), max)`), for every configuration whose initial
delay does not exceed its cap. -/
theorem c8_reconnect_backoff (cfg : WsConfig)
    (h : cfg.initial_reconnect_delay ≤ cfg.max_reconnect_delay) (k : ℕ) :
    reconnectDelay cfg k = min (cfg.initial_reconnect_delay * 2 ^ k) cfg.max_reconnect_delay := by
  induction k with
  | zero => simp [reconnectDelay, h]
  | succ k ih =>
    simp only [reconnectDelay, nextReconnectDelay, ih, pow_succ, ← Nat.mul_assoc]
    have hx : 0 ≤ cfg.initial_reconnect_delay * 2 ^ k := Nat.zero_le _
    omega

/-- Witness for C8: with initial delay 1 and cap 30, the seventh slept
delay is the cap. -/
theorem c8_witness : reconnectDelay ⟨0, 1, 30⟩ 6 = 30 := by
  have h := c8_reconnect_backoff ⟨0, 1, 30⟩ (by norm_num) 6
  simpa using h

/-! ## C9: round-trip exposure accounting -/

/-- C9: opening a position from a fill of size `s` at price `p_in` adds
`s·p_in` to `total_exposure`; closing it with an exit fill of size `s` at
price `p_out` subtracts `s·p_out`; hence the exposure ends changed by
`s·(p_in − p_out)`, and (for `s ≠ 0`) returns to its pre-open value iff
`p_out = p_in`. -/
theorem c9_round_trip_exposure (t : PositionTracker) (signal : Signal)
    (fill_in fill_out : Fill) (id : ℕ) (hs : fill_out.size = fill_in.size) :
    ((t.openPosition signal fill_in id).2.total_exposure =
      t.total_exposure + fill_in.size * fill_in.price) ∧
    ∃ c t2, (t.openPosition signal fill_in id).2.close id fill_out = some (c, t2) ∧
      t2.total_exposure =
        (t.openPosition signal fill_in id).2.total_exposure -
          fill_out.size * fill_out.price ∧
      t2.total_exposure = t.total_exposure + fill_in.size * (fill_in.price - fill_out.price) ∧
      (fill_in.size ≠ 0 →
        (t2.total_exposure = t.total_exposure ↔ fill_out.price = fill_in.price)) := by
  have hrm : removeEntry ((t.openPosition signal fill_in id).2.open_positions) id =
      some (⟨id, signal.market, signal.side, fill_in.price, fill_in.size, fill_in.timestamp, 0⟩,
            t.open_positions) := by
    simp [PositionTracker.openPosition, removeEntry]
  refine ⟨rfl, ?_⟩
  rcases hE : (t.openPosition signal fill_in id).2.close id fill_out with _ | cp
  · exfalso
    unfold PositionTracker.close at hE
    rw [hrm] at hE
    simp at hE
  · obtain ⟨c, t2⟩ := cp
    have hE2 := hE
    unfold PositionTracker.close at hE2
    rw [hrm] at hE2
    simp only [Option.some.injEq, Prod.mk.injEq] at hE2
    obtain ⟨-, ht2⟩ := hE2
    have htot : t2.total_exposure =
        t.total_exposure + fill_in.size * fill_in.price - fill_out.size * fill_out.price := by
      rw [← ht2]
      simp [PositionTracker.openPosition]
    refine ⟨c, t2, rfl, ?_, ?_, ?_⟩
    · rw [htot]
      simp [PositionTracker.openPosition]
    · rw [htot, hs]; ring
    · intro hsz
      rw [htot, hs]
      constructor
      · intro he
        have h0 : fill_in.size * (fill_in.price - fill_out.price) = 0 := by linarith
        rcases mul_eq_zero.mp h0 with h1 | h1
        · exact absurd h1 hsz
        · linarith
      · intro he; rw [he]; ring

/-- Witness for C9: a fill of size 100 at 0.50 opened and closed at 0.60
changes the exposure by 100·(0.50 − 0.60) = −10, and the exposure does not
return to its pre-open value. -/
theorem c9_witness :
    ∃ c t2,
      (PositionTracker.new.openPosition
          ⟨⟨"c", "y", "n", 95000, 0, 900⟩, .Yes, 55/100, 50/100, 5/100, 2/100, 8/10⟩
          ⟨1, "y", .Yes, 50/100, 100, 0, 1/2⟩ 7).2.close 7
          ⟨2, "y", .Yes, 60/100, 100, 5, 1/2⟩ = some (c, t2) ∧
      t2.total_exposure = PositionTracker.new.total_exposure + 100 * (50/100 - 60/100) ∧
      ¬ t2.total_exposure = PositionTracker.new.total_exposure := by
  have h := c9_round_trip_exposure PositionTracker.new
    ⟨⟨"c", "y", "n", 95000, 0, 900⟩, .Yes, 55/100, 50/100, 5/100, 2/100, 8/10⟩
    ⟨1, "y", .Yes, 50/100, 100, 0, 1/2⟩ ⟨2, "y", .Yes, 60/100, 100, 5, 1/2⟩ 7 rfl
  obtain ⟨-, c, t2, hc, -, hchange, hiff⟩ := h
  refine ⟨c, t2, hc, ?_, ?_⟩
  · rw [hchange]
  · intro he
    have := (hiff (by norm_num)).mp he
    norm_num at this

/-! ## C6: lag signal side and window-check priority -/

/-- C6: any signal emitted by `detect_at` has side `Yes` iff the momentum
direction is `Up` (and `No` iff `Down`); and the trading-window rejections
precede the lag-magnitude rejection: an input evaluated less than
`min_seconds_after_open` seconds past market open never produces a
`LagTooSmall` rejection. -/
theorem c6_side_and_window_priority :
    (∀ (cfg : LagDetectorConfig) (momentum : MomentumSignal) (odds : OddsState)
        (market : Market) (now : ℤ) (s : LagSignal),
      detect_at cfg momentum odds market now = .ok (some s) →
      (s.side = .Yes ↔ momentum.direction = .Up) ∧
      (s.side = .No ↔ momentum.direction = .Down)) ∧
    (∀ (cfg : LagDetectorConfig) (momentum : MomentumSignal) (odds : OddsState)
        (market : Market) (now : ℤ),
      now - market.open_time < cfg.min_seconds_after_open * 1000000000 →
      detect_at cfg momentum odds market now ≠ .error .LagTooSmall) := by
  constructor
  · intro cfg momentum odds market now s h
    simp only [detect_at] at h
    rcases hdir : momentum.direction
    all_goals rw [hdir] at h
    all_goals split_ifs at h <;> simp only [Except.ok.injEq, Option.some.injEq] at h
    all_goals rw [← h]
    all_goals simp [LagSignal.new]
  · intro cfg momentum odds market now hlt h
    simp only [detect_at] at h
    by_cases h1 : numSeconds (now - market.open_time) < cfg.min_seconds_after_open
    · rw [if_pos h1] at h
      simp at h
    · have hno : now < market.open_time := by
        by_contra hge
        push_neg at hge
        exact h1 (tdiv_sec_lt (by omega) hlt)
      rw [if_neg h1] at h
      by_cases h2 : numSeconds (market.close_time - now) < cfg.max_seconds_before_close
      · rw [if_pos h2] at h
        simp at h
      · rw [if_neg h2, if_pos (Or.inl hno)] at h
        simp at h

/-- Witness for C6: half a minute after open (one minute required), the
detector rejects, and the rejection is not `LagTooSmall`. -/
theorem c6_witness :
    detect_at LagDetectorConfig.default ⟨.Up, 1/100, 95000, 95950, 0, 8/10⟩ ⟨52/100, 48/100⟩
      ⟨"c", "y", "n", 95000, 0, 900000000000⟩ (30 * 1000000000) ≠ .error .LagTooSmall := by
  exact c6_side_and_window_priority.2 _ _ _ _ _ (by decide)

/-! ## C10: reachability of the MarketNotActive rejection -/

/-- C10 counterexample: with `min_seconds_after_open = 0`, an evaluation
time half a second before market open truncates to 0 elapsed seconds,
passes the too-early check, and hits `MarketNotActive` — so the claim's
"for every `now < open_time` the result is `TooEarlyInWindow`" and
"`MarketNotActive` is unreachable when the window bounds are ≥ 0" are
false. -/
theorem c10_counterexample :
    detect_at ⟨10/100, 60/100, 40/100, 0, 120, 10⟩ ⟨.Up, 1/100, 95000, 95950, 0, 8/10⟩
        ⟨52/100, 48/100⟩ ⟨"c", "y", "n", 95000, 1000000000, 900000000000⟩ 500000000 =
      .error .MarketNotActive ∧
    NoLagReason.MarketNotActive ≠ NoLagReason.TooEarlyInWindow := by
  constructor
  · simp only [detect_at]
    rw [if_neg (by decide), if_neg (by decide), if_pos (by decide)]
  · decide

/-- C10 (amended): whenever `min_seconds_after_open ≥ 1` and
`max_seconds_before_close ≥ 1`, every input with `now < open_time` yields
`TooEarlyInWindow`, every input with `now > close_time` yields
`TooEarlyInWindow` or `TooCloseToClose`, and `detect_at` never returns
`MarketNotActive`. -/
theorem c10_market_not_active_unreachable (cfg : LagDetectorConfig)
    (momentum : MomentumSignal) (odds : OddsState) (market : Market) (now : ℤ)
    (hmin : 1 ≤ cfg.min_seconds_after_open) (hmax : 1 ≤ cfg.max_seconds_before_close) :
    (now < market.open_time →
      detect_at cfg momentum odds market now = .error .TooEarlyInWindow) ∧
    (market.close_time < now →
      detect_at cfg momentum odds market now = .error .TooEarlyInWindow ∨
      detect_at cfg momentum odds market now = .error .TooCloseToClose) ∧
    detect_at cfg momentum odds market now ≠ .error .MarketNotActive := by
  refine ⟨fun hearly => ?_, fun hlate => ?_, ?_⟩
  · simp only [detect_at]
    rw [if_pos ?_]
    have := tdiv_sec_nonpos (d := now - market.open_time) (by omega)
    omega
  · by_cases h1 : numSeconds (now - market.open_time) < cfg.min_seconds_after_open
    · left
      simp only [detect_at]
      rw [if_pos h1]
    · right
      simp only [detect_at]
      rw [if_neg h1, if_pos ?_]
      have := tdiv_sec_nonpos (d := market.close_time - now) (by omega)
      omega
  · intro h
    simp only [detect_at] at h
    by_cases h1 : numSeconds (now - market.open_time) < cfg.min_seconds_after_open
    · rw [if_pos h1] at h
      simp at h
    · rw [if_neg h1] at h
      by_cases h2 : numSeconds (market.close_time - now) < cfg.max_seconds_before_close
      · rw [if_pos h2] at h
        simp at h
      · rw [if_neg h2] at h
        have hopen : market.open_time < now := by
          have := tdiv_sec_pos (d := now - market.open_time) (by omega)
          omega
        have hclose : now < market.close_time := by
          have := tdiv_sec_pos (d := market.close_time - now) (by omega)
          omega
        rw [if_neg (by omega)] at h
        rcases hdir : momentum.direction
        all_goals rw [hdir] at h
        all_goals split_ifs at h <;> simp at h

/-- Witness for C10 (amended): with the default configuration, one second
before open the detector says `TooEarlyInWindow`, not `MarketNotActive`. -/
theorem c10_witness :
    detect_at LagDetectorConfig.default ⟨.Up, 1/100, 95000, 95950, 0, 8/10⟩ ⟨52/100, 48/100⟩
        ⟨"c", "y", "n", 95000, 2000000000, 900000000000⟩ 1000000000 =
      .error .TooEarlyInWindow := by
  exact (c10_market_not_active_unreachable LagDetectorConfig.default _ _ _ _
    (by decide) (by decide)).1 (by decide)

/-! ## C2: the Down-direction lag formula -/

/-- Helper: `calculate_expected_price` in closed form. -/
theorem calculate_expected_price_eq (cfg : LagDetectorConfig) (momentum : MomentumSignal) :
    calculate_expected_price cfg momentum =
      min (max (1/2 + momentum.move_pct * cfg.price_sensitivity) (1/10)) (9/10) := by
  simp only [calculate_expected_price]
  rw [show (50:ℚ)/100 + momentum.move_pct * 100 * cfg.price_sensitivity / 100 =
      1/2 + momentum.move_pct * cfg.price_sensitivity from by ring]
  norm_num

/-- C2 (amended): for a Down-direction momentum signal with non-negative
`move_pct`, odds with `yes_price` strictly above `min_yes_for_down`, inside
the trading window, the lag equals
`yes_price − (1 − expected)` with
`expected = clamp(0.5 + move_pct·price_sensitivity, 0.10, 0.90)` — the
unsigned move magnitude, with no direction factor — and the signal is
emitted iff this lag is at least `min_lag_cents`. -/
theorem c2_down_lag_formula (cfg : LagDetectorConfig) (momentum : MomentumSignal)
    (odds : OddsState) (market : Market) (now : ℤ)
    (hdir : momentum.direction = .Down) (_hm : 0 ≤ momentum.move_pct)
    (hyes : cfg.min_yes_for_down < odds.yes_price)
    (h1 : ¬ numSeconds (now - market.open_time) < cfg.min_seconds_after_open)
    (h2 : ¬ numSeconds (market.close_time - now) < cfg.max_seconds_before_close)
    (h3 : ¬ (now < market.open_time ∨ market.close_time < now)) :
    (cfg.min_lag_cents ≤
        odds.yes_price -
          (1 - min (max (1/2 + momentum.move_pct * cfg.price_sensitivity) (1/10)) (9/10)) →
      ∃ s, detect_at cfg momentum odds market now = .ok (some s) ∧ s.side = .No ∧
        s.lag_magnitude =
          odds.yes_price -
            (1 - min (max (1/2 + momentum.move_pct * cfg.price_sensitivity) (1/10)) (9/10))) ∧
    (odds.yes_price -
          (1 - min (max (1/2 + momentum.move_pct * cfg.price_sensitivity) (1/10)) (9/10)) <
        cfg.min_lag_cents →
      detect_at cfg momentum odds market now = .error .LagTooSmall) := by
  have hy2 : ¬ odds.yes_price ≤ cfg.min_yes_for_down := not_le.mpr hyes
  constructor
  · intro hge
    refine ⟨LagSignal.new .No (odds.yes_price - (1 - calculate_expected_price cfg momentum))
      (1 - calculate_expected_price cfg momentum) odds.yes_price momentum odds
      (numSeconds (now - market.open_time)) (numSeconds (market.close_time - now)),
      ?_, ?_, ?_⟩
    · simp only [detect_at, hdir]
      rw [if_neg h1, if_neg h2, if_neg h3, if_neg hy2,
        if_neg (by rw [calculate_expected_price_eq]; exact not_lt.mpr hge)]
    · simp [LagSignal.new]
    · simp [LagSignal.new, calculate_expected_price_eq]
  · intro hlt
    simp only [detect_at, hdir]
    rw [if_neg h1, if_neg h2, if_neg h3, if_neg hy2,
      if_pos (by rw [calculate_expected_price_eq]; exact hlt)]

/-- C2 counterexample: a 1 % Down move, `yes_price = 0.52`, default
configuration, three minutes into a fifteen-minute market. The detector
emits a signal with lag 0.12, while the claim's formula — `expected`
computed with the direction factor −1 — gives a lag of −0.08, which is
below `min_lag_cents`, so the claim both mispredicts the computed lag and
predicts no emission. -/
theorem c2_counterexample :
    detect_at LagDetectorConfig.default ⟨.Down, 1/100, 95000, 94050, 0, 8/10⟩
        ⟨52/100, 48/100⟩ ⟨"c", "y", "n", 95000, 0, 900000000000⟩ (180 * 1000000000) =
      .ok (some ⟨.No, 3/25, 2/5, 13/25, ⟨.Down, 1/100, 95000, 94050, 0, 8/10⟩,
        ⟨52/100, 48/100⟩, 7/10, 180, 720⟩) ∧
    (52:ℚ)/100 -
        (1 - spec_expected_directional LagDetectorConfig.default.price_sensitivity (1/100) .Down) =
      -2/25 ∧
    (-2:ℚ)/25 < LagDetectorConfig.default.min_lag_cents ∧
    (3:ℚ)/25 ≠ -2/25 := by
  have hsso : numSeconds (180 * 1000000000 - 0) = 180 := by decide
  have hsuc : numSeconds (900000000000 - 180 * 1000000000) = 720 := by decide
  refine ⟨?_, ?_, ?_, ?_⟩
  · simp only [detect_at, LagDetectorConfig.default, hsso, hsuc]
    rw [if_neg (by norm_num), if_neg (by norm_num), if_neg (by norm_num),
      if_neg (by norm_num), if_neg (by norm_num [calculate_expected_price])]
    norm_num [LagSignal.new, calculate_expected_price]
  · norm_num [spec_expected_directional, LagDetectorConfig.default]
  · norm_num [LagDetectorConfig.default]
  · norm_num

/-- Witness for C2 (amended), at the counterexample's inputs: the emitted
lag is 0.12 = 0.52 − (1 − 0.6). -/
theorem c2_witness :
    ∃ s, detect_at LagDetectorConfig.default ⟨.Down, 1/100, 95000, 94050, 0, 8/10⟩
        ⟨52/100, 48/100⟩ ⟨"c", "y", "n", 95000, 0, 900000000000⟩ (180 * 1000000000) =
      .ok (some s) ∧ s.side = .No ∧
      s.lag_magnitude =
        (52:ℚ)/100 - (1 - min (max (1/2 + (1/100) * 10) (1/10)) (9/10)) := by
  have h := c2_down_lag_formula LagDetectorConfig.default
    ⟨.Down, 1/100, 95000, 94050, 0, 8/10⟩ ⟨52/100, 48/100⟩
    ⟨"c", "y", "n", 95000, 0, 900000000000⟩ (180 * 1000000000)
    rfl (by norm_num) (by norm_num [LagDetectorConfig.default])
    (by decide) (by decide) (by decide)
  exact h.1 (by norm_num [LagDetectorConfig.default])

/-! ## C5: momentum move bounds and direction consistency -/

/-- C5: whenever the momentum detector emits a signal (for a positive
strike price and a positive minimum-move threshold), the relative move
`(current − strike)/strike` of the newest sample satisfies
`min_move_pct ≤ |move| ≤ max_move_pct`, and the emitted direction is `Up`
iff `current − strike > 0` and `Down` iff `current − strike < 0`. -/
theorem c5_momentum_bounds_and_direction (cfg : MomentumConfig)
    (st st2 : MomentumDetectorState) (strike : ℚ) (sig : MomentumSignal)
    (hstrike : 0 < strike) (hmin : 0 < cfg.min_move_pct)
    (h : MomentumDetector.detect cfg st strike = (some sig, st2)) :
    ∃ ts current, st.prices.getLast? = some (ts, current) ∧
      cfg.min_move_pct ≤ |(current - strike) / strike| ∧
      |(current - strike) / strike| ≤ cfg.max_move_pct ∧
      (sig.direction = .Up ↔ 0 < current - strike) ∧
      (sig.direction = .Down ↔ current - strike < 0) := by
  simp only [MomentumDetector.detect] at h
  by_cases hg : (st.prices.isEmpty : Prop) ∨ strike = 0
  · rw [if_pos hg] at h
    simp at h
  · rw [if_neg hg] at h
    rcases hl : st.prices.getLast? with _ | tp
    · simp only [hl] at h
      simp at h
    · obtain ⟨ts, current⟩ := tp
      simp only [hl] at h
      by_cases habs : |(current - strike) / strike| < cfg.min_move_pct
      · rw [if_pos habs] at h
        simp at h
      · rw [if_neg habs] at h
        by_cases hmax : cfg.max_move_pct < |(current - strike) / strike|
        · rw [if_pos hmax] at h
          simp at h
        · rw [if_neg hmax] at h
          have hne : (current - strike) / strike ≠ 0 := by
            intro h0
            rw [h0] at habs
            simp at habs
            exact absurd (lt_of_lt_of_le hmin habs) (lt_irrefl 0)
          rcases hld : st.last_direction with _ | last
          · simp only [hld] at h
            simp at h
          · simp only [hld] at h
            rcases hds : st.direction_start with _ | start
            · simp only [hds] at h
              split_ifs at h <;> simp at h
            · simp only [hds] at h
              by_cases hpos : 0 < (current - strike) / strike
              · simp only [if_pos hpos] at h
                have hcs : 0 < current - strike := by
                  have := mul_pos hpos hstrike
                  rwa [div_mul_cancel₀ _ (ne_of_gt hstrike)] at this
                split_ifs at h with hlast hconf
                · simp only [Prod.mk.injEq, Option.some.injEq] at h
                  obtain ⟨hsig, -⟩ := h
                  refine ⟨ts, current, rfl, not_lt.mp habs, not_lt.mp hmax, ?_, ?_⟩
                  · rw [← hsig]
                    simp [hcs]
                  · rw [← hsig]
                    simp only [reduceCtorEq, false_iff, not_lt]
                    linarith
                · simp at h
                · simp at h
              · simp only [if_neg hpos] at h
                have hmv : (current - strike) / strike < 0 :=
                  lt_of_le_of_ne (not_lt.mp hpos) hne
                have hcs : current - strike < 0 := by
                  have := mul_neg_of_neg_of_pos hmv hstrike
                  rwa [div_mul_cancel₀ _ (ne_of_gt hstrike)] at this
                split_ifs at h with hlast hconf
                · simp only [Prod.mk.injEq, Option.some.injEq] at h
                  obtain ⟨hsig, -⟩ := h
                  refine ⟨ts, current, rfl, not_lt.mp habs, not_lt.mp hmax, ?_, ?_⟩
                  · rw [← hsig]
                    simp only [reduceCtorEq, false_iff, not_lt]
                    linarith
                  · rw [← hsig]
                    simp [hcs]
                · simp at h
                · simp at h

/-- Witness for C5: a confirmed 0.8 % up-move over a 95,000 strike. -/
theorem c5_witness :
    ∃ ts current,
      (MomentumDetectorState.mk [((0:ℤ), (95760:ℚ)), ((6000000000:ℤ), (95760:ℚ))]
          (some .Up) (some 0)).prices.getLast? = some (ts, current) ∧
      (MomentumConfig.mk 120 (7/1000) (5/100) 5).min_move_pct ≤
        |(current - 95000) / 95000| ∧
      |(current - 95000) / 95000| ≤ (MomentumConfig.mk 120 (7/1000) (5/100) 5).max_move_pct ∧
      ((MomentumSignal.mk .Up (1/125) 95000 95760 0 (307/875)).direction = .Up ↔
        0 < current - 95000) ∧
      ((MomentumSignal.mk .Up (1/125) 95000 95760 0 (307/875)).direction = .Down ↔
        current - 95000 < 0) := by
  have hE : MomentumDetector.detect (MomentumConfig.mk 120 (7/1000) (5/100) 5)
      (MomentumDetectorState.mk [((0:ℤ), (95760:ℚ)), ((6000000000:ℤ), (95760:ℚ))]
        (some .Up) (some 0)) 95000 =
      (some (MomentumSignal.mk .Up (1/125) 95000 95760 0 (307/875)),
       MomentumDetectorState.mk [((0:ℤ), (95760:ℚ)), ((6000000000:ℤ), (95760:ℚ))]
        (some .Up) (some 0)) := by
    have h6 : numSeconds 6000000000 = 6 := by decide
    norm_num [MomentumDetector.detect, calculate_velocity, calculate_confidence, h6,
      List.getLast?, abs_of_nonneg]
  exact c5_momentum_bounds_and_direction _ _ _ 95000 _ (by norm_num) (by norm_num) hE

/-! ## Helper lemmas on the book store -/

theorem find?_entry_cons_ne {t2 k : String} (v : OrderBook)
    (rest : List (String × OrderBook)) (h : ¬ t2 = k) :
    List.find? (fun p : String × OrderBook => p.1 == t2) ((k, v) :: rest) =
      List.find? (fun p : String × OrderBook => p.1 == t2) rest := by
  rw [List.find?_cons]
  rw [show ((k, v).1 == t2) = false from by
    simp only [beq_eq_false_iff_ne, ne_eq]
    exact fun hc => h hc.symm]

theorem find?_entry_cons_eq {t2 k : String} (v : OrderBook)
    (rest : List (String × OrderBook)) (h : t2 = k) :
    List.find? (fun p : String × OrderBook => p.1 == t2) ((k, v) :: rest) = some (k, v) := by
  rw [List.find?_cons]
  rw [show ((k, v).1 == t2) = true from by simp [h]]

theorem find?_insertEntry (t2 t : String) (b : OrderBook) (books : List (String × OrderBook)) :
    List.find? (fun p : String × OrderBook => p.1 == t2) (insertEntry books t b) =
      if t2 = t then some (t, b)
      else List.find? (fun p : String × OrderBook => p.1 == t2) books := by
  induction books with
  | nil =>
    by_cases h : t2 = t
    · subst h
      simp [insertEntry]
    · rw [if_neg h]
      show List.find? _ [(t, b)] = List.find? _ []
      rw [find?_entry_cons_ne b [] h]
  | cons kv rest ih =>
    obtain ⟨k, v⟩ := kv
    by_cases hk : k = t
    · subst hk
      have hins : insertEntry ((k, v) :: rest) k b = (k, b) :: rest := by
        simp [insertEntry]
      rw [hins]
      by_cases h : t2 = k
      · rw [if_pos h, find?_entry_cons_eq b rest h]
      · rw [if_neg h, find?_entry_cons_ne b rest h, find?_entry_cons_ne v rest h]
    · have hins : insertEntry ((k, v) :: rest) t b = (k, v) :: insertEntry rest t b := by
        simp [insertEntry, hk]
      rw [hins]
      by_cases h : t2 = k
      · rw [if_neg (fun hc : t2 = t => hk (h.symm.trans hc)),
          find?_entry_cons_eq v (insertEntry rest t b) h, find?_entry_cons_eq v rest h]
      · rw [find?_entry_cons_ne v (insertEntry rest t b) h,
          find?_entry_cons_ne v rest h, ih]

theorem get_insertEntry (books : List (String × OrderBook)) (t : String) (b : OrderBook)
    (t2 : String) :
    OrderBookManager.get ⟨insertEntry books t b⟩ t2 =
      if t2 = t then some b else OrderBookManager.get ⟨books⟩ t2 := by
  simp only [OrderBookManager.get, find?_insertEntry]
  by_cases h : t2 = t <;> simp [h]

theorem upsertLevel_price_mem (levels : List PriceLevel) (nl : PriceLevel) {q : ℚ}
    (hq : q ∈ levels.map (·.price)) : q ∈ (upsertLevel levels nl).map (·.price) := by
  induction levels with
  | nil => simp at hq
  | cons l ls ih =>
    simp only [List.map_cons, List.mem_cons] at hq
    by_cases he : l.price = nl.price
    · simp only [upsertLevel, if_pos he, List.map_cons, List.mem_cons]
      rcases hq with h | h
      · exact Or.inl h
      · exact Or.inr h
    · simp only [upsertLevel, if_neg he, List.map_cons, List.mem_cons]
      rcases hq with h | h
      · exact Or.inl h
      · exact Or.inr (ih h)

theorem upsertLevel_price_self (levels : List PriceLevel) (nl : PriceLevel) :
    nl.price ∈ (upsertLevel levels nl).map (·.price) := by
  induction levels with
  | nil => simp [upsertLevel]
  | cons l ls ih =>
    by_cases he : l.price = nl.price
    · simp only [upsertLevel, if_pos he, List.map_cons, List.mem_cons]
      exact Or.inl he.symm
    · simp only [upsertLevel, if_neg he, List.map_cons, List.mem_cons]
      exact Or.inr ih

theorem upsertLevels_price_mem (incoming : List PriceLevel) :
    ∀ (existing : List PriceLevel) (q : ℚ), q ∈ existing.map (·.price) →
      q ∈ (upsertLevels existing incoming).map (·.price) := by
  induction incoming with
  | nil => intro existing q hq; exact hq
  | cons nl rest ih =>
    intro existing q hq
    exact ih (upsertLevel existing nl) q (upsertLevel_price_mem existing nl hq)

theorem upsertLevels_price_self (incoming : List PriceLevel) :
    ∀ (existing : List PriceLevel) (nl : PriceLevel), nl ∈ incoming →
      nl.price ∈ (upsertLevels existing incoming).map (·.price) := by
  induction incoming with
  | nil => intro existing nl h; simp at h
  | cons x rest ih =>
    intro existing nl h
    rcases List.mem_cons.mp h with h1 | h1
    · subst h1
      exact upsertLevels_price_mem rest (upsertLevel existing nl) nl.price
        (upsertLevel_price_self existing nl)
    · exact ih (upsertLevel existing x) nl h1

theorem mem_sortBidsDesc {ls : List PriceLevel} {l : PriceLevel} :
    l ∈ sortBidsDesc ls ↔ l ∈ ls := List.mem_mergeSort

theorem mem_sortAsksAsc {ls : List PriceLevel} {l : PriceLevel} :
    l ∈ sortAsksAsc ls ↔ l ∈ ls := List.mem_mergeSort

/-! ## C1: zero-size delta levels are not removed -/

/-- C1 (amended): zero-size entries in a `price_change` event are skipped —
every level of an update produced by `price_changes_to_orderbook` has
non-zero size, so no removal instruction ever reaches the store — and
`merge_update` only upserts: every price named by a delta update (a
zero-size level included) is present in the stored book afterwards. -/
theorem c1_zero_size_not_removed :
    (∀ (now : ℤ) (msg : PriceChangesMessage) (b : OrderBook),
      price_changes_to_orderbook now msg = some b →
      (∀ l ∈ b.bids, l.size ≠ 0) ∧ (∀ l ∈ b.asks, l.size ≠ 0)) ∧
    (∀ (m : OrderBookManager) (u : OrderBook),
      ∃ b, (m.merge_update u).get u.token_id = some b ∧
        (∀ l ∈ u.bids, ∃ l2 ∈ b.bids, l2.price = l.price) ∧
        (∀ l ∈ u.asks, ∃ l2 ∈ b.asks, l2.price = l.price)) := by
  constructor
  · intro now msg b h
    have key : ∀ (changes : List PriceChange)
        (acc : List (String × List PriceLevel × List PriceLevel)),
        (∀ e ∈ acc, (∀ l ∈ e.2.1, l.size ≠ 0) ∧ (∀ l ∈ e.2.2, l.size ≠ 0)) →
        ∀ e ∈ changes.foldl
          (fun acc c =>
            match c.price, c.size with
            | some p, some s => if s = 0 then acc else pushChange acc c.asset_id ⟨p, s⟩ c.side
            | _, _ => acc) acc,
          (∀ l ∈ e.2.1, l.size ≠ 0) ∧ (∀ l ∈ e.2.2, l.size ≠ 0) := by
      intro changes
      induction changes with
      | nil => intro acc hacc; exact hacc
      | cons c rest ih =>
        intro acc hacc
        simp only [List.foldl_cons]
        apply ih
        rcases hp : c.price with _ | p <;> rcases hs : c.size with _ | s <;>
          simp only
        · exact hacc
        · exact hacc
        · exact hacc
        · by_cases hz : s = 0
          · rw [if_pos hz]; exact hacc
          · rw [if_neg hz]
            have push : ∀ (acc2 : List (String × List PriceLevel × List PriceLevel))
                (a : String) (sd : String),
                (∀ e ∈ acc2, (∀ l ∈ e.2.1, l.size ≠ 0) ∧ (∀ l ∈ e.2.2, l.size ≠ 0)) →
                ∀ e ∈ pushChange acc2 a ⟨p, s⟩ sd,
                  (∀ l ∈ e.2.1, l.size ≠ 0) ∧ (∀ l ∈ e.2.2, l.size ≠ 0) := by
              intro acc2
              induction acc2 with
              | nil =>
                intro a sd _ e he
                simp only [pushChange, List.mem_singleton] at he
                subst he
                constructor <;> intro l hl <;>
                  simp only [pushSide] at hl <;> split_ifs at hl <;>
                    simp at hl <;> simp [hl, hz]
              | cons kv rest2 ih2 =>
                obtain ⟨k, e0⟩ := kv
                intro a sd hacc2 e he
                simp only [pushChange] at he
                split_ifs at he with hk
                · rcases List.mem_cons.mp he with h1 | h1
                  · subst h1
                    have h0 := hacc2 (k, e0) (List.mem_cons_self _ _)
                    constructor <;> intro l hl <;>
                      simp only [pushSide] at hl <;> split_ifs at hl
                    · rcases List.mem_append.mp hl with h2 | h2
                      · exact h0.1 l h2
                      · simp at h2; simp [h2, hz]
                    · exact h0.1 l hl
                    · exact h0.1 l hl
                    · exact h0.2 l hl
                    · rcases List.mem_append.mp hl with h2 | h2
                      · exact h0.2 l h2
                      · simp at h2; simp [h2, hz]
                    · exact h0.2 l hl
                  · exact hacc2 e (List.mem_cons_of_mem _ h1)
                · rcases List.mem_cons.mp he with h1 | h1
                  · subst h1; exact hacc2 (k, e0) (List.mem_cons_self _ _)
                  · exact ih2 a sd (fun e2 he2 => hacc2 e2 (List.mem_cons_of_mem _ he2)) e h1
            exact push acc c.asset_id c.side hacc
    have key2 : ∀ e ∈ groupChanges msg.price_changes,
        (∀ l ∈ e.2.1, l.size ≠ 0) ∧ (∀ l ∈ e.2.2, l.size ≠ 0) := by
      simp only [groupChanges]
      exact key msg.price_changes [] (by simp)
    simp only [price_changes_to_orderbook] at h
    split_ifs at h with hemp
    rcases hg : groupChanges msg.price_changes with _ | ⟨⟨asset, e⟩, rest⟩
    · simp only [hg] at h
      simp at h
    · simp only [hg] at h
      split_ifs at h with hboth
      simp only [Option.some.injEq] at h
      subst h
      exact key2 (asset, e) (by rw [hg]; exact List.mem_cons_self _ _)
  · intro m u
    unfold OrderBookManager.merge_update
    rcases hget : m.get u.token_id with _ | existing
    · refine ⟨u, ?_, ?_, ?_⟩
      · exact (get_insertEntry m.books u.token_id u u.token_id).trans (if_pos rfl)
      · intro l hl; exact ⟨l, hl, rfl⟩
      · intro l hl; exact ⟨l, hl, rfl⟩
    · refine ⟨⟨u.token_id, sortBidsDesc (upsertLevels existing.bids u.bids),
          sortAsksAsc (upsertLevels existing.asks u.asks), u.updated_at⟩, ?_, ?_, ?_⟩
      · exact (get_insertEntry m.books u.token_id
          ⟨u.token_id, sortBidsDesc (upsertLevels existing.bids u.bids),
           sortAsksAsc (upsertLevels existing.asks u.asks), u.updated_at⟩ u.token_id).trans
          (if_pos rfl)
      · intro l hl
        have := upsertLevels_price_self u.bids existing.bids l hl
        rcases List.mem_map.mp this with ⟨l2, hl2, hp⟩
        exact ⟨l2, mem_sortBidsDesc.mpr hl2, hp⟩
      · intro l hl
        have := upsertLevels_price_self u.asks existing.asks l hl
        rcases List.mem_map.mp this with ⟨l2, hl2, hp⟩
        exact ⟨l2, mem_sortAsksAsc.mpr hl2, hp⟩

/-- C1 counterexample: a stored book with a bid level (0.5, 100) receives a
delta naming price 0.5 with size 0. After the merge the level is still
present, with size 0 — not absent as the claim requires. And a zero-size
entry in a `price_change` event produces no update at all (the message is
dropped), so it cannot cause a removal. -/
theorem c1_counterexample :
    (OrderBookManager.mk [("t", OrderBook.mk "t" [PriceLevel.mk (1/2) 100] [] 0)]).merge_update
        (OrderBook.mk "t" [PriceLevel.mk (1/2) 0] [] 1) =
      OrderBookManager.mk [("t", OrderBook.mk "t" [PriceLevel.mk (1/2) 0] [] 1)] ∧
    price_changes_to_orderbook 5 ⟨none, [⟨"t", some (1/2), some 0, "BUY"⟩]⟩ = none := by
  constructor
  · simp only [OrderBookManager.merge_update, OrderBookManager.get, List.find?]
    norm_num [upsertLevels, upsertLevel, sortBidsDesc, sortAsksAsc, List.mergeSort,
      insertEntry]
  · norm_num [price_changes_to_orderbook, groupChanges]

/-- Witness for C1 (amended): a message with a live BUY level and a
zero-size SELL level yields an update containing only the non-zero level,
and merging a delta into a one-level book leaves the delta's price present. -/
theorem c1_witness :
    ((∀ l ∈ (OrderBook.mk "t" [PriceLevel.mk (1/2) 3] [] 5).bids, l.size ≠ 0) ∧
      (∀ l ∈ (OrderBook.mk "t" [PriceLevel.mk (1/2) 3] [] 5).asks, l.size ≠ 0)) ∧
    ∃ b, ((OrderBookManager.mk [("t", OrderBook.mk "t" [PriceLevel.mk (1/2) 100] [] 0)]).merge_update
        (OrderBook.mk "t" [PriceLevel.mk (1/2) 0] [] 1)).get "t" = some b ∧
      (∀ l ∈ (OrderBook.mk "t" [PriceLevel.mk (1/2) 0] [] 1).bids,
        ∃ l2 ∈ b.bids, l2.price = l.price) ∧
      (∀ l ∈ (OrderBook.mk "t" [PriceLevel.mk (1/2) 0] [] 1).asks,
        ∃ l2 ∈ b.asks, l2.price = l.price) := by
  constructor
  · apply c1_zero_size_not_removed.1 5
      ⟨none, [⟨"t", some (1/2), some 3, "BUY"⟩, ⟨"t", some (3/5), some 0, "SELL"⟩]⟩
    norm_num [price_changes_to_orderbook, groupChanges, pushChange, pushSide]
  · exact c1_zero_size_not_removed.2
      (OrderBookManager.mk [("t", OrderBook.mk "t" [PriceLevel.mk (1/2) 100] [] 0)])
      (OrderBook.mk "t" [PriceLevel.mk (1/2) 0] [] 1)

/-! ## C4: recorder statistics conservation -/

theorem recorderStep_preserves {α : Type} (bs : ℕ) (s : RecorderState α) (e : RecorderEvent α)
    (hP : s.errored = false → s.stats.received = s.stats.written + s.buffer.length) :
    (recorderStep bs s e).errored = false →
      (recorderStep bs s e).stats.received =
        (recorderStep bs s e).stats.written + (recorderStep bs s e).buffer.length := by
  rcases e with r | ok | ok
  · simp only [recorderStep]
    split_ifs <;> exact hP
  · simp only [recorderStep]
    rcases hq : s.queue with _ | ⟨r, rest⟩
    · exact hP
    · simp only []
      split_ifs with hbs
      · simp only [flushBuffer]
        split_ifs with hemp hok
        · intro h2
          have h3 := hP h2
          simp at h3 ⊢
          omega
        · intro h2
          have h3 := hP h2
          simp at h3 ⊢
          omega
        · intro h2
          simp at h2
      · intro h2
        have h3 := hP h2
        simp at h3 ⊢
        omega
  · simp only [recorderStep]
    split_ifs with hemp
    · exact hP
    · simp only [flushBuffer]
      rw [if_neg hemp]
      split_ifs with hok
      · intro h2
        have h3 := hP h2
        simp at h3 ⊢
        omega
      · intro h2
        simp at h2

theorem recorderRun_invariant {α : Type} (bs : ℕ) (events : List (RecorderEvent α)) :
    ∀ (s0 : RecorderState α),
      (s0.errored = false → s0.stats.received = s0.stats.written + s0.buffer.length) →
      (events.foldl (recorderStep bs) s0).errored = false →
      (events.foldl (recorderStep bs) s0).stats.received =
        (events.foldl (recorderStep bs) s0).stats.written +
          (events.foldl (recorderStep bs) s0).buffer.length := by
  induction events with
  | nil => intro s0 h0; exact h0
  | cons e rest ih =>
    intro s0 h0
    exact ih (recorderStep bs s0 e) (recorderStep_preserves bs s0 e h0)

/-- C4 (amended): at every reachable state of the recorder pipeline in
which the writer has not errored, `received = written + in_buffer`. The
`channel_drops` counter does not enter the identity: dropped records are
never dequeued, so they are never counted as received. -/
theorem c4_received_conservation {α : Type} (buffer_size : ℕ)
    (events : List (RecorderEvent α))
    (h : (recorderRun buffer_size events).errored = false) :
    (recorderRun buffer_size events).stats.received =
      (recorderRun buffer_size events).stats.written +
        (recorderRun buffer_size events).buffer.length :=
  recorderRun_invariant buffer_size events RecorderState.init (fun _ => rfl) h

theorem recorderRun_record_replicate (bs : ℕ) (n : ℕ) :
    recorderRun bs (List.replicate n (RecorderEvent.record ())) =
      ⟨List.replicate (min n recorderChannelCapacity) (), [],
       ⟨0, 0, n - recorderChannelCapacity⟩, false⟩ := by
  induction n with
  | zero => simp [recorderRun, RecorderState.init, recorderChannelCapacity]
  | succ n ih =>
    rw [recorderRun, List.replicate_succ', List.foldl_append]
    rw [show List.foldl (recorderStep bs) RecorderState.init
        (List.replicate n (RecorderEvent.record ())) =
      recorderRun bs (List.replicate n (RecorderEvent.record ())) from rfl, ih]
    simp only [List.foldl_cons, List.foldl_nil, recorderStep, List.length_replicate]
    by_cases hn : n < recorderChannelCapacity
    · rw [if_pos (by omega : min n recorderChannelCapacity < recorderChannelCapacity)]
      have h1 : min n recorderChannelCapacity = n := by omega
      have h2 : min (n + 1) recorderChannelCapacity = n + 1 := by omega
      have h3 : n - recorderChannelCapacity = 0 := by omega
      have h4 : n + 1 - recorderChannelCapacity = 0 := by omega
      rw [h1, h2, h3, h4, ← List.replicate_succ']
    · rw [if_neg (by omega : ¬ min n recorderChannelCapacity < recorderChannelCapacity)]
      have h1 : min n recorderChannelCapacity = recorderChannelCapacity := by omega
      have h2 : min (n + 1) recorderChannelCapacity = recorderChannelCapacity := by omega
      have h3 : n - recorderChannelCapacity + 1 = n + 1 - recorderChannelCapacity := by omega
      rw [h1, h2, h3]

/-- C4 counterexample: after 10,001 producer enqueues and no writer
activity, the channel (capacity 10,000) has dropped one record; the writer
has not errored, `received = written = in_buffer = 0`, `channel_drops = 1`,
so `received = written + in_buffer + channel_drops` fails. -/
theorem c4_counterexample :
    (recorderRun 100 (List.replicate 10001 (RecorderEvent.record ()))).errored = false ∧
    ¬ ((recorderRun 100 (List.replicate 10001 (RecorderEvent.record ()))).stats.received =
        (recorderRun 100 (List.replicate 10001 (RecorderEvent.record ()))).stats.written +
          (recorderRun 100 (List.replicate 10001 (RecorderEvent.record ()))).buffer.length +
          (recorderRun 100 (List.replicate 10001 (RecorderEvent.record ()))).stats.channel_drops)
    := by
  rw [recorderRun_record_replicate 100 10001]
  refine ⟨rfl, ?_⟩
  simp [recorderChannelCapacity]

/-- Witness for C4 (amended): one record enqueued, dequeued and flushed
successfully — received 1, written 1, empty buffer. -/
theorem c4_witness :
    (recorderRun 1 [RecorderEvent.record (), RecorderEvent.writerRecv true]).stats.received =
      (recorderRun 1 [RecorderEvent.record (), RecorderEvent.writerRecv true]).stats.written +
        (recorderRun 1 [RecorderEvent.record (), RecorderEvent.writerRecv true]).buffer.length :=
  c4_received_conservation 1 [RecorderEvent.record (), RecorderEvent.writerRecv true] (by decide)

/-! ## C3: book-store shape invariants -/

theorem strictDesc_nodupPrices {ls : List PriceLevel} (h : strictDesc ls) :
    (ls.map (·.price)).Nodup :=
  List.pairwise_map.mpr (h.imp fun hlt => ne_of_gt hlt)

theorem strictAsc_nodupPrices {ls : List PriceLevel} (h : strictAsc ls) :
    (ls.map (·.price)).Nodup :=
  List.pairwise_map.mpr (h.imp fun hlt => ne_of_lt hlt)

theorem upsertLevel_price_subset {levels : List PriceLevel} {nl : PriceLevel} {q : ℚ}
    (hq : q ∈ (upsertLevel levels nl).map (·.price)) :
    q ∈ levels.map (·.price) ∨ q = nl.price := by
  induction levels with
  | nil =>
    simp only [upsertLevel, List.map_cons, List.map_nil, List.mem_singleton] at hq
    exact Or.inr hq
  | cons l ls ih =>
    by_cases he : l.price = nl.price
    · simp only [upsertLevel, if_pos he, List.map_cons, List.mem_cons] at hq
      rcases hq with h1 | h1
      · exact Or.inl (List.mem_cons.mpr (Or.inl h1))
      · exact Or.inl (List.mem_cons.mpr (Or.inr h1))
    · simp only [upsertLevel, if_neg he, List.map_cons, List.mem_cons] at hq
      rcases hq with h1 | h1
      · exact Or.inl (List.mem_cons.mpr (Or.inl h1))
      · rcases ih h1 with h2 | h2
        · exact Or.inl (List.mem_cons.mpr (Or.inr h2))
        · exact Or.inr h2

theorem nodupPrices_upsertLevel {levels : List PriceLevel} (nl : PriceLevel)
    (h : (levels.map (·.price)).Nodup) :
    ((upsertLevel levels nl).map (·.price)).Nodup := by
  induction levels with
  | nil => simp [upsertLevel]
  | cons l ls ih =>
    simp only [List.map_cons, List.nodup_cons] at h
    by_cases he : l.price = nl.price
    · simp only [upsertLevel, if_pos he, List.map_cons, List.nodup_cons]
      exact h
    · simp only [upsertLevel, if_neg he, List.map_cons, List.nodup_cons]
      refine ⟨?_, ih h.2⟩
      intro hmem
      rcases upsertLevel_price_subset hmem with h1 | h1
      · exact h.1 h1
      · exact he h1

theorem posSizes_upsertLevel {levels : List PriceLevel} (nl : PriceLevel)
    (h : posSizes levels) (hnl : 0 < nl.size) : posSizes (upsertLevel levels nl) := by
  induction levels with
  | nil =>
    intro l hl
    simp only [upsertLevel, List.mem_singleton] at hl
    rw [hl]; exact hnl
  | cons l0 ls ih =>
    intro l hl
    by_cases he : l0.price = nl.price
    · simp only [upsertLevel, if_pos he, List.mem_cons] at hl
      rcases hl with h1 | h1
      · rw [h1]; exact hnl
      · exact h l (List.mem_cons_of_mem _ h1)
    · simp only [upsertLevel, if_neg he, List.mem_cons] at hl
      rcases hl with h1 | h1
      · rw [h1]; exact h l0 (List.mem_cons_self _ _)
      · exact ih (fun x hx => h x (List.mem_cons_of_mem _ hx)) l h1

theorem nodupPrices_upsertLevels (incoming : List PriceLevel) :
    ∀ (existing : List PriceLevel), (existing.map (·.price)).Nodup →
      ((upsertLevels existing incoming).map (·.price)).Nodup := by
  induction incoming with
  | nil => intro existing h; exact h
  | cons nl rest ih =>
    intro existing h
    exact ih (upsertLevel existing nl) (nodupPrices_upsertLevel nl h)

theorem posSizes_upsertLevels (incoming : List PriceLevel) :
    ∀ (existing : List PriceLevel), posSizes existing → (∀ nl ∈ incoming, 0 < nl.size) →
      posSizes (upsertLevels existing incoming) := by
  induction incoming with
  | nil => intro existing h _; exact h
  | cons nl rest ih =>
    intro existing h hin
    exact ih (upsertLevel existing nl)
      (posSizes_upsertLevel nl h (hin nl (List.mem_cons_self _ _)))
      (fun x hx => hin x (List.mem_cons_of_mem _ hx))

theorem strictDesc_sortBidsDesc (ls : List PriceLevel)
    (hnd : (ls.map (·.price)).Nodup) : strictDesc (sortBidsDesc ls) := by
  have hperm : (sortBidsDesc ls).Perm ls := List.mergeSort_perm ls _
  have hnd2 : ((sortBidsDesc ls).map (·.price)).Nodup :=
    ((hperm.map (·.price)).nodup_iff).mpr hnd
  have hsorted : (ls.mergeSort (fun a b => b.price ≤ a.price)).Pairwise
      (fun a b : PriceLevel => (decide (b.price ≤ a.price)) = true) := by
    apply List.sorted_mergeSort
    · intro a b c hab hbc
      simp only [decide_eq_true_eq] at *
      exact le_trans hbc hab
    · intro a b
      simp only [Bool.or_eq_true, decide_eq_true_eq]
      exact le_total b.price a.price
  have hne : (sortBidsDesc ls).Pairwise (fun a b => a.price ≠ b.price) :=
    List.pairwise_map.mp hnd2
  exact (hsorted.and hne).imp fun hp =>
    lt_of_le_of_ne (of_decide_eq_true hp.1) (fun he => hp.2 he.symm)

theorem strictAsc_sortAsksAsc (ls : List PriceLevel)
    (hnd : (ls.map (·.price)).Nodup) : strictAsc (sortAsksAsc ls) := by
  have hperm : (sortAsksAsc ls).Perm ls := List.mergeSort_perm ls _
  have hnd2 : ((sortAsksAsc ls).map (·.price)).Nodup :=
    ((hperm.map (·.price)).nodup_iff).mpr hnd
  have hsorted : (ls.mergeSort (fun a b => a.price ≤ b.price)).Pairwise
      (fun a b : PriceLevel => (decide (a.price ≤ b.price)) = true) := by
    apply List.sorted_mergeSort
    · intro a b c hab hbc
      simp only [decide_eq_true_eq] at *
      exact le_trans hab hbc
    · intro a b
      simp only [Bool.or_eq_true, decide_eq_true_eq]
      exact le_total a.price b.price
  have hne : (sortAsksAsc ls).Pairwise (fun a b => a.price ≠ b.price) :=
    List.pairwise_map.mp hnd2
  exact (hsorted.and hne).imp fun hp =>
    lt_of_le_of_ne (of_decide_eq_true hp.1) hp.2

theorem update_preserves_wf (m : OrderBookManager) (b : OrderBook)
    (hm : ∀ t bk, m.get t = some bk → wfBook bk) (hb : wfBook b) :
    ∀ t bk, (m.update b).get t = some bk → wfBook bk := by
  intro t bk hbk
  unfold OrderBookManager.update at hbk
  split_ifs at hbk with hbig
  · rw [get_insertEntry] at hbk
    split_ifs at hbk with ht
    · rw [← Option.some.inj hbk]
      exact hb
    · exact hm t bk hbk
  · unfold OrderBookManager.merge_update at hbk
    rcases hget : m.get b.token_id with _ | existing
    · simp only [hget] at hbk
      rw [get_insertEntry] at hbk
      split_ifs at hbk with ht
      · rw [← Option.some.inj hbk]
        exact hb
      · exact hm t bk hbk
    · simp only [hget] at hbk
      rw [get_insertEntry] at hbk
      split_ifs at hbk with ht
      · rw [← Option.some.inj hbk]
        have hex : wfBook existing := hm b.token_id existing hget
        refine ⟨?_, ?_, ?_, ?_⟩
        · exact strictDesc_sortBidsDesc _
            (nodupPrices_upsertLevels b.bids existing.bids (strictDesc_nodupPrices hex.1))
        · exact strictAsc_sortAsksAsc _
            (nodupPrices_upsertLevels b.asks existing.asks (strictAsc_nodupPrices hex.2.1))
        · intro l hl
          exact posSizes_upsertLevels b.bids existing.bids hex.2.2.1 hb.2.2.1 l
            (mem_sortBidsDesc.mp hl)
        · intro l hl
          exact posSizes_upsertLevels b.asks existing.asks hex.2.2.2 hb.2.2.2 l
            (mem_sortAsksAsc.mp hl)
      · exact hm t bk hbk

theorem applyBooks_wf : ∀ (events : List OrderBook) (m : OrderBookManager),
    (∀ b ∈ events, wfBook b) → (∀ t bk, m.get t = some bk → wfBook bk) →
    ∀ t bk, (events.foldl OrderBookManager.update m).get t = some bk → wfBook bk := by
  intro events
  induction events with
  | nil => intro m _ hm; exact hm
  | cons b rest ih =>
    intro m hwf hm
    exact ih (m.update b) (fun x hx => hwf x (List.mem_cons_of_mem _ hx))
      (update_preserves_wf m b hm (hwf b (List.mem_cons_self _ _)))

/-- C3 (amended): provided every applied snapshot or delta book itself has
strictly descending bids, strictly ascending asks and positive sizes, every
book stored by the manager after any sequence of applications keeps those
three per-side properties. The cross-side invariant `best_bid < best_ask`
is NOT maintained (a delta can cross the book — see the counterexample),
and books applied without these properties are stored verbatim. -/
theorem c3_per_side_invariants (events : List OrderBook)
    (hwf : ∀ b ∈ events, wfBook b) :
    ∀ t book, (applyBooks events).get t = some book → wfBook book := by
  apply applyBooks_wf events OrderBookManager.new hwf
  intro t bk hbk
  simp [OrderBookManager.new, OrderBookManager.get] at hbk

/-- C3 counterexample: a six-level snapshot with ascending bid prices is
stored verbatim (bids not strictly descending), and a delta adding a bid at
0.60 to a book whose best ask is 0.55 crosses the stored book — both
violating the claim, the second even though every applied book was
well-formed. -/
theorem c3_counterexample :
    (applyBooks
        [⟨"a", [⟨1, 1⟩, ⟨2, 1⟩, ⟨3, 1⟩, ⟨4, 1⟩, ⟨5, 1⟩, ⟨6, 1⟩], [], 0⟩,
         ⟨"b", [⟨45/100, 100⟩], [⟨55/100, 100⟩], 0⟩,
         ⟨"b", [⟨3/5, 100⟩], [], 1⟩]).get "a" =
      some ⟨"a", [⟨1, 1⟩, ⟨2, 1⟩, ⟨3, 1⟩, ⟨4, 1⟩, ⟨5, 1⟩, ⟨6, 1⟩], [], 0⟩ ∧
    ¬ strictDesc [⟨1, 1⟩, ⟨2, 1⟩, ⟨3, 1⟩, ⟨4, 1⟩, ⟨5, 1⟩, ⟨6, 1⟩] ∧
    (applyBooks
        [⟨"a", [⟨1, 1⟩, ⟨2, 1⟩, ⟨3, 1⟩, ⟨4, 1⟩, ⟨5, 1⟩, ⟨6, 1⟩], [], 0⟩,
         ⟨"b", [⟨45/100, 100⟩], [⟨55/100, 100⟩], 0⟩,
         ⟨"b", [⟨3/5, 100⟩], [], 1⟩]).get "b" =
      some ⟨"b", [⟨3/5, 100⟩, ⟨45/100, 100⟩], [⟨55/100, 100⟩], 1⟩ ∧
    wfBook ⟨"b", [⟨45/100, 100⟩], [⟨55/100, 100⟩], 0⟩ ∧
    wfBook ⟨"b", [⟨3/5, 100⟩], [], 1⟩ ∧
    OrderBook.best_bid ⟨"b", [⟨3/5, 100⟩, ⟨45/100, 100⟩], [⟨55/100, 100⟩], 1⟩ = some (3/5) ∧
    OrderBook.best_ask ⟨"b", [⟨3/5, 100⟩, ⟨45/100, 100⟩], [⟨55/100, 100⟩], 1⟩ = some (11/20) ∧
    ¬ ((3:ℚ)/5 < 11/20) := by
  have hrun : applyBooks
      [⟨"a", [⟨1, 1⟩, ⟨2, 1⟩, ⟨3, 1⟩, ⟨4, 1⟩, ⟨5, 1⟩, ⟨6, 1⟩], [], 0⟩,
       ⟨"b", [⟨45/100, 100⟩], [⟨55/100, 100⟩], 0⟩,
       ⟨"b", [⟨3/5, 100⟩], [], 1⟩] =
      ⟨[("a", ⟨"a", [⟨1, 1⟩, ⟨2, 1⟩, ⟨3, 1⟩, ⟨4, 1⟩, ⟨5, 1⟩, ⟨6, 1⟩], [], 0⟩),
        ("b", ⟨"b", [⟨3/5, 100⟩, ⟨45/100, 100⟩], [⟨55/100, 100⟩], 1⟩)]⟩ := by
    norm_num [applyBooks, OrderBookManager.new, OrderBookManager.update,
      OrderBookManager.merge_update, OrderBookManager.get, insertEntry, upsertLevels,
      upsertLevel, sortBidsDesc, sortAsksAsc, List.mergeSort, List.find?,
      show ¬("a" : String) = "b" from by decide,
      show (("a" : String) == "b") = false from by decide,
      show (("b" : String) == "a") = false from by decide]
  rw [hrun]
  refine ⟨?_, ?_, ?_, ?_, ?_, ?_, ?_, ?_⟩
  · simp [OrderBookManager.get, List.find?]
  · intro hdesc
    have h1 := (List.pairwise_cons.mp hdesc).1 ⟨2, 1⟩ (List.mem_cons_self _ _)
    norm_num at h1
  · simp [OrderBookManager.get, List.find?,
      show (("a" : String) == "b") = false from by decide]
  · refine ⟨?_, ?_, ?_, ?_⟩
    · simp [strictDesc]
    · simp [strictAsc]
    · intro l hl
      simp only [List.mem_singleton] at hl
      rw [hl]; norm_num
    · intro l hl
      simp only [List.mem_singleton] at hl
      rw [hl]; norm_num
  · refine ⟨?_, ?_, ?_, ?_⟩
    · simp [strictDesc]
    · simp [strictAsc]
    · intro l hl
      simp only [List.mem_singleton] at hl
      rw [hl]; norm_num
    · intro l hl
      simp at hl
  · simp [OrderBook.best_bid]
  · simp only [OrderBook.best_ask, List.head?, Option.map]
    norm_num
  · norm_num

/-- Witness for C3 (amended): a single well-formed book is stored and keeps
its per-side shape. -/
theorem c3_witness :
    wfBook (OrderBook.mk "b" [PriceLevel.mk (9/20) 100] [PriceLevel.mk (11/20) 100] 0) := by
  have hget : (applyBooks [OrderBook.mk "b" [PriceLevel.mk (9/20) 100]
        [PriceLevel.mk (11/20) 100] 0]).get "b" =
      some (OrderBook.mk "b" [PriceLevel.mk (9/20) 100] [PriceLevel.mk (11/20) 100] 0) := by
    norm_num [applyBooks, OrderBookManager.new, OrderBookManager.update,
      OrderBookManager.merge_update, OrderBookManager.get, insertEntry, List.find?]
  apply c3_per_side_invariants _ ?_ "b" _ hget
  intro b hb
  simp only [List.mem_singleton] at hb
  subst hb
  refine ⟨?_, ?_, ?_, ?_⟩
  · simp [strictDesc]
  · simp [strictAsc]
  · intro l hl
    simp only [List.mem_singleton] at hl
    rw [hl]
    norm_num
  · intro l hl
    simp only [List.mem_singleton] at hl
    rw [hl]
    norm_num

end PolyHft
